import Mathlib

/-!
Shallow embedding of the `hft-event-bus` crate (dynamic broadcast bus,
typed bus, event recorder, deterministic replay engine), together with
theorems settling the specification claims.

Conventions of the embedding:
* Rust machine integers (`i64`, `u64`, `usize`, `u8`) are modelled as
  `Int` / `Nat`; none of the verified code paths overflow-wrap.
* Rust `f64` fields that only travel through the code as data (prices,
  sizes) are modelled as `Rat`; the single `f64` computation that a claim
  depends on (the replay pacing division `virtual_delta_ns as f64 /
  multiplier` followed by `as u64` truncation) is modelled as exact
  rational division followed by floor/truncation-to-`Nat`.
* Fallible operations (Rust panics: index out of bounds, `% 0`) are
  modelled with `Option`: `none` means the call panics.
* `async` functions and channel sends are modelled as pure state
  transitions; a `tokio::time::sleep` in the replay loop is modelled as
  an explicit `sleepFor` action in the returned action trace.
-/

/-! ## Data model (`events.rs`) -/

/-- `MarketDataEvent` from `events.rs`: raw market data (tick, quote,
trade).  `f64` price/size fields are modelled as `Rat`. -/
structure MarketDataEvent where
  timestamp : Int
  symbol : String
  price : Rat
  volume : Rat
  bid_price : Rat
  bid_size : Rat
  ask_price : Rat
  ask_size : Rat
deriving DecidableEq, Repr

/-- Payload of a dynamic-bus event, i.e. a value of some type
implementing the `Event` trait.  `marketData` embeds `MarketDataEvent`
(whose `event_type()` is the static string `"market_data"`); `tagged`
abstracts every other `Event` implementor by its static type-name string
plus a tag distinguishing distinct values. -/
inductive EventPayload where
  | marketData (m : MarketDataEvent)
  | tagged (typeName : String) (tag : Nat)
deriving DecidableEq, Repr

/-- `Event::event_type()`: the stable type-name string of a payload. -/
def EventPayload.event_type : EventPayload → String
  | .marketData _ => "market_data"
  | .tagged n _ => n

/-- `EventEnvelope` from `events.rs`: payload plus metadata (monotonic
id, creation timestamp in nanoseconds, priority). -/
structure EventEnvelope where
  id : Nat
  timestamp_ns : Int
  priority : Nat
  event : EventPayload
deriving DecidableEq, Repr

instance : Inhabited EventEnvelope :=
  ⟨⟨0, 0, 5, EventPayload.tagged ("") 0⟩⟩

/-! ## Recorder (`replay.rs`) -/

/-- State of `EventRecorder`: the circular buffer of events, the fixed
capacity, and the rotating write cursor. -/
structure RecState where
  events : List EventEnvelope
  capacity : Nat
  position : Nat
deriving DecidableEq, Repr

/-- `EventRecorder::new(capacity)`. -/
def EventRecorder.new (capacity : Nat) : RecState :=
  ⟨[], capacity, 0⟩

/-- `EventRecorder::record`: while below capacity, append; once at
capacity, overwrite the slot at the cursor; then advance the cursor
modulo capacity.  `none` models a Rust panic: in the overwrite branch,
`events[*pos]` panics when the cursor is out of bounds, and
`(*pos + 1) % self.capacity` panics when `capacity = 0` (in the append
branch `events.len() < capacity` forces `capacity ≥ 1`, so the modulo
there cannot panic). -/
def EventRecorder.record (s : RecState) (e : EventEnvelope) : Option RecState :=
  if s.events.length < s.capacity then
    some ⟨s.events ++ [e], s.capacity, (s.position + 1) % s.capacity⟩
  else if s.position < s.events.length then
    if s.capacity ≠ 0 then
      some ⟨s.events.set s.position e, s.capacity, (s.position + 1) % s.capacity⟩
    else
      none
  else
    none

/-- `EventRecorder::clear`: reset to empty, cursor to 0. -/
def EventRecorder.clear (s : RecState) : RecState :=
  ⟨[], s.capacity, 0⟩

/-- `EventRecorder::get_events`: snapshot of current contents. -/
def EventRecorder.get_events (s : RecState) : List EventEnvelope :=
  s.events

/-- One mutating recorder operation (`record` or `clear`). -/
inductive RecOp where
  | record (e : EventEnvelope)
  | clear
deriving DecidableEq, Repr

/-- Apply one recorder operation; `none` propagates a panic. -/
def applyRecOp (s : RecState) : RecOp → Option RecState
  | .record e => EventRecorder.record s e
  | .clear => some (EventRecorder.clear s)

/-- Apply a sequence of recorder operations left to right. -/
def applyRecOps (s : RecState) : List RecOp → Option RecState
  | [] => some s
  | op :: ops => (applyRecOp s op).bind (fun s' => applyRecOps s' ops)

/-- A recorder state reachable from `EventRecorder::new capacity` by a
panic-free sequence of `record`/`clear` operations. -/
def ReachableRec (capacity : Nat) (s : RecState) : Prop :=
  ∃ ops, applyRecOps (EventRecorder.new capacity) ops = some s

/-- The recorder invariant used throughout: length bounded by capacity,
and (when the capacity is positive) the cursor strictly below it. -/
def RecInv (s : RecState) : Prop :=
  s.events.length ≤ s.capacity ∧ (1 ≤ s.capacity → s.position < s.capacity)

/-- Concrete envelopes used by witnesses and counterexamples. -/
def mkEnv (i : Nat) (ts : Int) : EventEnvelope :=
  ⟨i, ts, 5, EventPayload.tagged ("market_data") i⟩

/-! ## Dynamic broadcast bus (`bus.rs`) -/

/-- Per-type-name statistics (`EventStats` in `bus.rs`). -/
structure EventStats where
  published : Nat
  received : Nat
  dropped : Nat
deriving DecidableEq, Repr

/-- `EventStats::default()`. -/
def EventStats.zero : EventStats := ⟨0, 0, 0⟩

/-- One fan-out (tokio `broadcast`) channel: the number of live
receivers, and the queue of sent envelopes in send order (a broadcast
channel delivers to every receiver in publish order; the queue records
that order). -/
structure ChanState where
  receivers : Nat
  queue : List EventEnvelope
deriving DecidableEq, Repr

/-- Association-list lookup, modelling `DashMap` access keyed by the
type-name string. -/
def alistFind {β : Type} (k : String) : List (String × β) → Option β
  | [] => none
  | (k', v) :: rest => if k' = k then some v else alistFind k rest

/-- `DashMap::entry(k).or_insert_with(default)` followed by a mutation
`f` of the entry's value (`EventBus::increment_stat`). -/
def setStat (k : String) (f : EventStats → EventStats) :
    List (String × EventStats) → List (String × EventStats)
  | [] => [(k, f EventStats.zero)]
  | (k', v) :: rest =>
      if k' = k then (k', f v) :: rest else (k', v) :: setStat k f rest

/-- Replace the channel stored under key `k` (no-op if absent). -/
def setChan (k : String) (c : ChanState) :
    List (String × ChanState) → List (String × ChanState)
  | [] => []
  | (k', v) :: rest =>
      if k' = k then (k', c) :: rest else (k', v) :: setChan k c rest

/-- `channels.entry(t).or_insert_with(|| broadcast::channel(CAPACITY).0)`:
return the channel for the key, lazily creating a fresh one (no
receivers yet) on first access. -/
def getOrCreateChan (m : List (String × ChanState)) (k : String) :
    ChanState × List (String × ChanState) :=
  match alistFind k m with
  | some c => (c, m)
  | none => (⟨0, []⟩, m ++ [(k, ⟨0, []⟩)])

/-- State of `EventBus`: channel registry, statistics, optional
recorder, and the monotonic envelope-id counter (`COUNTER` in
`events.rs`, starting at 1, modelled per-bus). -/
structure BusState where
  channels : List (String × ChanState)
  statsMap : List (String × EventStats)
  recorder : Option RecState
  nextId : Nat
deriving DecidableEq, Repr

/-- `EventBus::new()`. -/
def EventBus.new : BusState := ⟨[], [], none, 1⟩

/-- `EventBus::with_recording(capacity)`. -/
def EventBus.with_recording (capacity : Nat) : BusState :=
  ⟨[], [], some (EventRecorder.new capacity), 1⟩

/-- `EventBus::publish_with_priority`: wrap the payload into a fresh
envelope (id from the monotonic counter, timestamp `now`), mirror it to
the recorder when recording is enabled, get-or-create the fan-out
channel for the payload's type name, and send.  A send with zero
receivers is not an error: it increments the `dropped` counter and
returns `Ok(())`; a delivered send increments `published`.  The `Int`
argument `now` makes the wall-clock timestamp explicit.  `none` models a
panic inside `EventRecorder::record`. -/
def EventBus.publish_with_priority (b : BusState) (now : Int)
    (ev : EventPayload) (priority : Nat) :
    Option (BusState × Except String Unit) :=
  let etype := ev.event_type
  let envelope : EventEnvelope := ⟨b.nextId, now, priority, ev⟩
  let b1 : BusState := { b with nextId := b.nextId + 1 }
  let recStep : Option BusState :=
    match b1.recorder with
    | none => some b1
    | some r =>
        (EventRecorder.record r envelope).map
          (fun r' => { b1 with recorder := some r' })
  recStep.map (fun b2 =>
    let pair := getOrCreateChan b2.channels etype
    if pair.1.receivers = 0 then
      ({ b2 with
          channels := pair.2,
          statsMap := setStat etype
            (fun st => { st with dropped := st.dropped + 1 }) b2.statsMap },
        Except.ok ())
    else
      ({ b2 with
          channels := setChan etype
            { pair.1 with queue := pair.1.queue ++ [envelope] } pair.2,
          statsMap := setStat etype
            (fun st => { st with published := st.published + 1 }) b2.statsMap },
        Except.ok ()))

/-- `EventBus::publish` (default priority 5). -/
def EventBus.publish (b : BusState) (now : Int) (ev : EventPayload) :
    Option (BusState × Except String Unit) :=
  EventBus.publish_with_priority b now ev 5

/-- `EventBus::subscribe`: get-or-create the channel for the key and add
one receiver. -/
def EventBus.subscribe (b : BusState) (etype : String) : BusState :=
  let pair := getOrCreateChan b.channels etype
  { b with
      channels := setChan etype
        { pair.1 with receivers := pair.1.receivers + 1 } pair.2 }

/-- `EventBus::get_stats`: all per-type-name statistics entries. -/
def EventBus.get_stats (b : BusState) : List (String × EventStats) :=
  b.statsMap

/-- One dynamic-bus operation. -/
inductive BusOp where
  | pub (now : Int) (ev : EventPayload) (priority : Nat)
  | sub (etype : String)
deriving DecidableEq, Repr

/-- Apply one bus operation; `none` propagates a recorder panic. -/
def applyBusOp (b : BusState) : BusOp → Option BusState
  | .pub now ev priority =>
      (EventBus.publish_with_priority b now ev priority).map Prod.fst
  | .sub etype => some (EventBus.subscribe b etype)

/-- Apply a sequence of bus operations left to right. -/
def applyBusOps (b : BusState) : List BusOp → Option BusState
  | [] => some b
  | op :: ops => (applyBusOp b op).bind (fun b' => applyBusOps b' ops)

/-- The per-type statistics entry for a key, defaulting to all-zero when
the key has never been touched. -/
def statOf (b : BusState) (k : String) : EventStats :=
  (alistFind k b.statsMap).getD EventStats.zero

/-- The `(published, dropped)` counters of the stats entry for key `k`
after a publish returning `r`. -/
def pubDropPair (r : Option (BusState × Except String Unit)) (k : String) :
    Option (Nat × Nat) :=
  r.map (fun p => ((statOf p.1 k).published, (statOf p.1 k).dropped))

/-- The concrete Scenario-1 market-data event (symbol "ES", price
6000.0). -/
def esMarketData : MarketDataEvent :=
  ⟨1234567890, "ES", 6000, 10, 5999, 5, 6001, 5⟩

/-- Scenario 1: publish one market-data event on a fresh bus with zero
subscribers. -/
def firstPublishResult : Option (BusState × Except String Unit) :=
  EventBus.publish_with_priority EventBus.new 1234567890
    (EventPayload.marketData esMarketData) 5

/-- `true` when every statistics entry in the list has `received = 0`. -/
def allReceivedZero (l : List (String × EventStats)) : Bool :=
  l.all (fun p => p.2.received == 0)

/-- The operations of the C8 witness run: subscribe to `"MarketData"`,
publish a market-data event (finds no subscriber: that key differs from
`"market_data"`), subscribe to the actual type name, publish again. -/
def c8Ops : List BusOp :=
  [BusOp.sub ("MarketData"),
   BusOp.pub 1 (EventPayload.marketData esMarketData) 5,
   BusOp.sub ("market_data"),
   BusOp.pub 2 (EventPayload.marketData esMarketData) 5]

/-- The bus state after running `c8Ops` from a fresh bus. -/
def c8Bus : BusState := (applyBusOps EventBus.new c8Ops).getD EventBus.new

/-! ## Subscriber helper (`subscriber.rs`) -/

/-- Outcome of `broadcast::Receiver::recv().await` as seen by the
`Subscriber` helper: a message, a lag signal reporting how many messages
were irrecoverably skipped, or a closed channel. -/
inductive BroadcastRecv where
  | ok (e : EventEnvelope)
  | lagged (skipped : Nat)
  | closed
deriving DecidableEq, Repr

/-- `Subscriber::recv`: the returned event (if any) paired with whether
a lag warning was logged.  `Lagged` logs a warning and yields `none`;
`Closed` yields `none`; the return type (`Option<EventEnvelope>` in the
source) has no error channel at all, so lag is never surfaced as an
error. -/
def Subscriber.recv : BroadcastRecv → Option EventEnvelope × Bool
  | .ok e => (some e, false)
  | .lagged _ => (none, true)
  | .closed => (none, false)

/-! ## Typed event bus (`typed_bus.rs`, `fast_channel.rs`) -/

/-- Per-type statistics of the typed bus (`TypedEventStats`). -/
structure TypedEventStats where
  published : Nat
  received : Nat
  subscribers : Nat
deriving DecidableEq, Repr

/-- `TypedEventStats::default()`. -/
def TypedEventStats.zero : TypedEventStats := ⟨0, 0, 0⟩

/-- A `FastChannel` (flume bounded queue) for one event type: the queue
contents (payloads abstracted by a tag) and whether every receiving
handle to the queue has been dropped (flume's disconnected state, in
which `send` fails).  The 100,000-slot capacity bound only causes a
blocking `send` to suspend, never to fail, so it does not appear in the
state. -/
structure FastChannelSt where
  queue : List Nat
  disconnected : Bool
deriving DecidableEq, Repr

/-- Generic association-list lookup (`DashMap` access); the dynamic bus
keys by type-name string, the typed bus by `TypeId` (modelled as `Nat`). -/
def alistFindN {β : Type} (k : Nat) : List (Nat × β) → Option β
  | [] => none
  | (k', v) :: rest => if k' = k then some v else alistFindN k rest

/-- Replace the value stored under key `k` (no-op if absent). -/
def alistSetN {β : Type} (k : Nat) (v : β) : List (Nat × β) → List (Nat × β)
  | [] => []
  | (k', v') :: rest =>
      if k' = k then (k', v) :: rest else (k', v') :: alistSetN k v rest

/-- `DashMap::entry(k).or_insert_with(default)` followed by mutation `f`
of the entry, for the typed-bus statistics. -/
def upsertTypedStat (k : Nat) (f : TypedEventStats → TypedEventStats) :
    List (Nat × TypedEventStats) → List (Nat × TypedEventStats)
  | [] => [(k, f TypedEventStats.zero)]
  | (k', v) :: rest =>
      if k' = k then (k', f v) :: rest else (k', v) :: upsertTypedStat k f rest

/-- State of `TypedEventBus`: the type-erased channel registry keyed by
`TypeId` and the per-type statistics.  The registry is well-typed by
construction, so the checked downcast of `get_or_create_channel` cannot
fail in the model. -/
structure TypedBusState where
  channels : List (Nat × FastChannelSt)
  statsT : List (Nat × TypedEventStats)
deriving DecidableEq, Repr

/-- `TypedEventBus::new()`. -/
def TypedEventBus.new : TypedBusState := ⟨[], []⟩

/-- `TypedEventBus::get_or_create_channel::<E>()`: return the channel
for the type key, lazily creating a fresh connected empty one
(`FastChannel::bounded(100_000)`) on first access. -/
def get_or_create_channel (b : TypedBusState) (k : Nat) :
    FastChannelSt × TypedBusState :=
  match alistFindN k b.channels with
  | some c => (c, b)
  | none => (⟨[], false⟩, { b with channels := b.channels ++ [(k, ⟨[], false⟩)] })

/-- `FastChannel::send`: enqueue, or fail with `SendError` carrying the
event back when every receiving handle has been dropped. -/
def FastChannel.send (c : FastChannelSt) (e : Nat) : Except Nat FastChannelSt :=
  if c.disconnected then Except.error e
  else Except.ok { c with queue := c.queue ++ [e] }

/-- `TypedEventBus::publish::<E>(event)`: get-or-create the channel for
the type key and send; on success increment the `published` counter for
that type; on failure return the `Disconnected` send error once (no
retry) with the statistics untouched. -/
def TypedEventBus.publish (b : TypedBusState) (k : Nat) (e : Nat) :
    Except Nat Unit × TypedBusState :=
  let pair := get_or_create_channel b k
  match FastChannel.send pair.1 e with
  | .error e' => (Except.error e', pair.2)
  | .ok c' =>
      (Except.ok (),
        { pair.2 with
            channels := alistSetN k c' pair.2.channels,
            statsT := upsertTypedStat k
              (fun st => { st with published := st.published + 1 }) pair.2.statsT })

/-- A typed bus holding one channel whose every receiving handle has
been dropped. -/
def deadChanBus : TypedBusState := ⟨[(1, ⟨[], true⟩)], []⟩

/-! ## Deterministic replay engine (`replay_mode.rs`) -/

/-- The sort key comparison used by `load_events`
(`events.sort_by_key(|e| e.timestamp_ns)`). -/
def tsle (a b : EventEnvelope) : Prop :=
  a.timestamp_ns ≤ b.timestamp_ns

instance : DecidableRel tsle := fun a b =>
  inferInstanceAs (Decidable (a.timestamp_ns ≤ b.timestamp_ns))

instance : IsTotal EventEnvelope tsle :=
  ⟨fun a b => Int.le_total a.timestamp_ns b.timestamp_ns⟩

instance : IsTrans EventEnvelope tsle :=
  ⟨fun _ _ _ h1 h2 => Int.le_trans h1 h2⟩

/-- `VirtualClock`: current / start / end virtual time in nanoseconds. -/
structure VirtualClock where
  current_ns : Int
  start_ns : Int
  end_ns : Int
deriving DecidableEq, Repr

/-- `VirtualClock::new()`. -/
def VirtualClock.new : VirtualClock := ⟨0, 0, 0⟩

/-- `VirtualClock::set_bounds`: set the bounds and reset current to the
start. -/
def VirtualClock.set_bounds (_ : VirtualClock) (s e : Int) : VirtualClock :=
  ⟨s, s, e⟩

/-- `VirtualClock::advance_to`. -/
def VirtualClock.advance_to (c : VirtualClock) (t : Int) : VirtualClock :=
  { c with current_ns := t }

/-- `VirtualClock::progress`: fraction of the span covered, clamped to 1
when `end ≤ start` (`f64` division modelled as exact `Rat` division). -/
def VirtualClock.progress (c : VirtualClock) : Rat :=
  if c.end_ns ≤ c.start_ns then 1
  else ((c.current_ns - c.start_ns : Int) : Rat) / ((c.end_ns - c.start_ns : Int) : Rat)

/-- `ReplaySpeed`; the `f64` multiplier is modelled as `Rat`. -/
inductive ReplaySpeed where
  | max
  | realtime
  | multiplier (m : Rat)
deriving DecidableEq, Repr

/-- State of `EventReplay` relevant to the claims: speed, loaded batch,
virtual clock.  The bus handle, callbacks and progress interval carry no
state the claims depend on. -/
structure EventReplay where
  speed : ReplaySpeed
  events : List EventEnvelope
  clock : VirtualClock
deriving DecidableEq, Repr

/-- `EventReplay::new(bus, speed)`. -/
def EventReplay.new (speed : ReplaySpeed) : EventReplay :=
  ⟨speed, [], VirtualClock.new⟩

/-- `EventReplay::load_events`: stably sort the input ascending by
`timestamp_ns` and, when the sorted batch is nonempty, set the virtual
clock bounds from its first and last timestamps.  Rust's
`sort_by_key` is a stable sort, and the output of a stable sort by a
key is unique, so it is embedded as Mathlib's stable `insertionSort`
by the same key. -/
def EventReplay.load_events (r : EventReplay) (events : List EventEnvelope) :
    EventReplay :=
  let sorted := events.insertionSort tsle
  let clock :=
    match sorted.head?, sorted.getLast? with
    | some f, some l => r.clock.set_bounds f.timestamp_ns l.timestamp_ns
    | _, _ => r.clock
  { r with events := sorted, clock := clock }

/-- `EventReplay::event_count`. -/
def EventReplay.event_count (r : EventReplay) : Nat :=
  r.events.length

/-- The effective speed multiplier used by the pacing branch of `run`
(`Realtime` is 1×; `Max` takes no pacing branch at all). -/
def effectiveMultiplier : ReplaySpeed → Option Rat
  | .max => none
  | .realtime => some 1
  | .multiplier m => some m

/-- `(virtual_delta_ns as f64 / multiplier) as u64`, with the `f64`
division modelled as exact rational division and the `as u64` cast as
truncation toward zero. -/
def wall_delay_ns (delta : Int) (m : Rat) : Nat :=
  ((delta : Rat) / m).floor.toNat

/-- The pacing decision of one `run` loop iteration: `some d` when a
`tokio::time::sleep` of `d` nanoseconds is performed before publishing
the event, `none` otherwise.  `prev` is `events[i-1].timestamp_ns` for
`i > 0` and `none` for the first event (`i = 0`); the sleep happens only
when the timestamp delta is positive and the computed wall delay exceeds
1 millisecond (1,000,000 ns). -/
def pacing_sleep (speed : ReplaySpeed) (prev : Option Int) (ts : Int) : Option Nat :=
  match effectiveMultiplier speed, prev with
  | none, _ => none
  | some _, none => none
  | some m, some p =>
      if 0 < ts - p then
        if 1000000 < wall_delay_ns (ts - p) m then some (wall_delay_ns (ts - p) m)
        else none
      else none

/-- Observable actions of a replay run, in order: pacing sleeps and
publishes of the loaded envelopes through the dynamic bus. -/
inductive ReplayAction where
  | sleepFor (ns : Nat)
  | publishEnv (e : EventEnvelope)
deriving DecidableEq, Repr

/-- The replay loop of `EventReplay::run`: for each event, an optional
pacing sleep (computed from the previous event's timestamp) followed by
the publish of that envelope's payload through the bus. -/
def runAux (speed : ReplaySpeed) : Option Int → List EventEnvelope → List ReplayAction
  | _, [] => []
  | prev, e :: rest =>
      (match pacing_sleep speed prev e.timestamp_ns with
        | some d => [ReplayAction.sleepFor d]
        | none => []) ++
        ReplayAction.publishEnv e :: runAux speed (some e.timestamp_ns) rest

/-- `EventReplay::run`: takes the loaded batch out, iterates it (action
trace returned alongside), advances the virtual clock to each event's
timestamp, and puts the batch back unchanged.  Wall-clock statistics
are real-time measurements and are not part of the state model. -/
def EventReplay.run (r : EventReplay) : EventReplay × List ReplayAction :=
  ({ r with
      clock := r.events.foldl (fun c e => c.advance_to e.timestamp_ns) r.clock },
    runAux r.speed none r.events)

/-- The envelopes published by a trace, in order; a broadcast channel
delivers them to each subscriber in exactly this order. -/
def publishedOf : List ReplayAction → List EventEnvelope
  | [] => []
  | ReplayAction.publishEnv e :: rest => e :: publishedOf rest
  | ReplayAction.sleepFor _ :: rest => publishedOf rest

/-- The binary-search loop of `Vec::partition_point` /
`binary_search_by`, fuelled (the fuel is an upper bound on `hi - lo`,
which halves every iteration, so `l.length` is always enough). -/
def ppLoop {α : Type} [Inhabited α] (p : α → Bool) (l : List α) :
    Nat → Nat → Nat → Nat
  | 0, lo, _ => lo
  | fuel + 1, lo, hi =>
      if lo < hi then
        if p (l.getD ((lo + hi) / 2) default) then
          ppLoop p l fuel ((lo + hi) / 2 + 1) hi
        else
          ppLoop p l fuel lo ((lo + hi) / 2)
      else lo

/-- `Vec::partition_point(pred)`: index of the first element for which
`pred` fails, assuming the list is partitioned (all `pred`-true elements
before all `pred`-false ones). -/
def partition_point {α : Type} [Inhabited α] (p : α → Bool) (l : List α) : Nat :=
  ppLoop p l l.length 0 l.length

/-- `EventReplay::run_until(end_ns)`: split the loaded batch at
`partition_point(|e| e.timestamp_ns <= end_ns)`, run the prefix, then
extend the batch `run` put back with the remaining suffix. -/
def EventReplay.run_until (r : EventReplay) (end_ns : Int) :
    EventReplay × List ReplayAction :=
  let cutoff := partition_point (fun e => decide (e.timestamp_ns ≤ end_ns)) r.events
  let remaining := r.events.drop cutoff
  let res := EventReplay.run { r with events := r.events.take cutoff }
  ({ res.1 with events := res.1.events ++ remaining }, res.2)

/-- The loaded two-event engine used by the C3 counterexample and
witness: timestamps 1 ns and 2 ns at maximum speed. -/
def c3Engine : EventReplay :=
  EventReplay.load_events (EventReplay.new ReplaySpeed.max) [mkEnv 1 1, mkEnv 2 2]

/-! ## Theorems -/

theorem recInv_new (capacity : Nat) : RecInv (EventRecorder.new capacity) := by
  constructor
  · simp [EventRecorder.new]
  · intro h
    simpa [EventRecorder.new] using h

theorem recInv_record {s s' : RecState} {e : EventEnvelope}
    (hinv : RecInv s) (h : EventRecorder.record s e = some s') : RecInv s' := by
  unfold EventRecorder.record at h
  split at h
  · case isTrue hlt =>
      cases h
      have hcap : 1 ≤ s.capacity := Nat.lt_of_le_of_lt (Nat.zero_le _) hlt
      constructor
      · simpa [List.length_append] using hlt
      · intro _
        exact Nat.mod_lt _ hcap
  · case isFalse hge =>
      split at h
      · case isTrue hpos =>
          split at h
          · case isTrue hcap =>
              cases h
              have hcap1 : 1 ≤ s.capacity := Nat.one_le_iff_ne_zero.mpr hcap
              constructor
              · simpa [List.length_set] using hinv.1
              · intro _
                exact Nat.mod_lt _ hcap1
          · case isFalse => cases h
      · case isFalse => cases h

theorem recInv_clear {s : RecState} (_ : RecInv s) : RecInv (EventRecorder.clear s) := by
  constructor
  · simp [EventRecorder.clear]
  · intro h
    simpa [EventRecorder.clear] using h

theorem recInv_op {s s' : RecState} {op : RecOp}
    (hinv : RecInv s) (h : applyRecOp s op = some s') : RecInv s' := by
  cases op with
  | record e => exact recInv_record hinv h
  | clear =>
      simp only [applyRecOp, Option.some.injEq] at h
      cases h
      exact recInv_clear hinv

theorem recInv_ops {ops : List RecOp} :
    ∀ {s s' : RecState}, RecInv s → applyRecOps s ops = some s' → RecInv s' := by
  induction ops with
  | nil =>
      intro s s' hinv h
      simp only [applyRecOps, Option.some.injEq] at h
      cases h
      exact hinv
  | cons op ops ih =>
      intro s s' hinv h
      simp only [applyRecOps] at h
      cases hmid : applyRecOp s op with
      | none => rw [hmid] at h; cases h
      | some smid =>
          rw [hmid] at h
          exact ih (recInv_op hinv hmid) h

theorem reachableRec_inv {capacity : Nat} {s : RecState}
    (h : ReachableRec capacity s) : RecInv s := by
  obtain ⟨ops, hops⟩ := h
  exact recInv_ops (recInv_new capacity) hops

theorem reachableRec_capacity {capacity : Nat} {s : RecState}
    (h : ReachableRec capacity s) : s.capacity = capacity := by
  obtain ⟨ops, hops⟩ := h
  have main : ∀ (ops : List RecOp) (t t' : RecState),
      applyRecOps t ops = some t' → t'.capacity = t.capacity := by
    intro ops
    induction ops with
    | nil =>
        intro t t' h
        simp only [applyRecOps, Option.some.injEq] at h
        cases h
        rfl
    | cons op ops ih =>
        intro t t' h
        simp only [applyRecOps] at h
        cases hmid : applyRecOp t op with
        | none => rw [hmid] at h; cases h
        | some tmid =>
            rw [hmid] at h
            have h1 : tmid.capacity = t.capacity := by
              cases op with
              | record e =>
                  simp only [applyRecOp] at hmid
                  unfold EventRecorder.record at hmid
                  split at hmid
                  · cases hmid; rfl
                  · split at hmid
                    · split at hmid
                      · cases hmid; rfl
                      · cases hmid
                    · cases hmid
              | clear =>
                  simp only [applyRecOp, Option.some.injEq] at hmid
                  cases hmid
                  rfl
            rw [ih tmid t' h, h1]
  simpa [EventRecorder.new] using main ops (EventRecorder.new capacity) s hops

theorem length_after_records :
    ∀ (l : List EventEnvelope) (s s' : RecState),
      s.events.length ≤ s.capacity →
      applyRecOps s (l.map RecOp.record) = some s' →
      s'.events.length = min (s.events.length + l.length) s.capacity := by
  intro l
  induction l with
  | nil =>
      intro s s' hle h
      simp only [List.map_nil, applyRecOps, Option.some.injEq] at h
      cases h
      simp
      omega
  | cons e l ih =>
      intro s s' hle h
      simp only [List.map_cons, applyRecOps, applyRecOp] at h
      cases hmid : EventRecorder.record s e with
      | none => rw [hmid] at h; cases h
      | some smid =>
          rw [hmid] at h
          simp only [Option.some_bind] at h
          unfold EventRecorder.record at hmid
          split at hmid
          · case isTrue hlt =>
              cases hmid
              have := ih _ s' (by simpa using hlt) h
              simp only [List.length_append, List.length_cons,
                List.length_nil] at this ⊢
              omega
          · case isFalse hge =>
              split at hmid
              · case isTrue hpos =>
                  split at hmid
                  · case isTrue hcap =>
                      cases hmid
                      have := ih _ s' (by simpa [List.length_set] using hle) h
                      simp only [List.length_set, List.length_cons] at this ⊢
                      omega
                  · case isFalse => cases hmid
              · case isFalse => cases hmid

/-- Claim C4: for every recorder of capacity `C`, the recorded-events
length never exceeds `C` after any (panic-free) sequence of
`record`/`clear` operations, and after inserting `C + m` (`m > 0`)
envelopes into a fresh recorder of capacity `C` the snapshot returned by
`get_events` has length exactly `C`. -/
theorem claim_C4 :
    (∀ (C : Nat) (ops : List RecOp) (s' : RecState),
        applyRecOps (EventRecorder.new C) ops = some s' →
        (EventRecorder.get_events s').length ≤ C) ∧
    (∀ (C m : Nat) (l : List EventEnvelope) (s' : RecState),
        0 < m → l.length = C + m →
        applyRecOps (EventRecorder.new C) (l.map RecOp.record) = some s' →
        (EventRecorder.get_events s').length = C) := by
  constructor
  · intro C ops s' h
    have hinv : RecInv s' := recInv_ops (recInv_new C) h
    have hcap : s'.capacity = C := reachableRec_capacity ⟨ops, h⟩
    simpa [EventRecorder.get_events, hcap] using hinv.1
  · intro C m l s' hm hlen h
    have := length_after_records l (EventRecorder.new C) s' (by simp [EventRecorder.new]) h
    simp only [EventRecorder.new, List.length_nil, Nat.zero_add, hlen] at this
    simp only [EventRecorder.get_events, this]
    omega

theorem claim_C4_witness :
    EventRecorder.get_events
        ⟨[mkEnv 5 5, mkEnv 4 4], 2, 1⟩ = [mkEnv 5 5, mkEnv 4 4] ∧
      (EventRecorder.get_events ⟨[mkEnv 5 5, mkEnv 4 4], 2, 1⟩).length = 2 :=
  ⟨rfl,
    claim_C4.2 2 3 [mkEnv 1 1, mkEnv 2 2, mkEnv 3 3, mkEnv 4 4, mkEnv 5 5]
      ⟨[mkEnv 5 5, mkEnv 4 4], 2, 1⟩ (by decide) (by decide) (by decide)⟩

/-- Claim C9: `EventRecorder::record` is total only when the capacity is
at least 1.  On a capacity-0 recorder every `record` call panics (the
cursor update divides by zero and the overwrite branch would index an
empty buffer); on any reachable state of a recorder whose capacity is at
least 1, `record` never panics. -/
theorem claim_C9 :
    (∀ (s : RecState) (e : EventEnvelope),
        ReachableRec 0 s → EventRecorder.record s e = none) ∧
    (∀ (C : Nat) (s : RecState) (e : EventEnvelope),
        1 ≤ C → ReachableRec C s → (EventRecorder.record s e).isSome) := by
  constructor
  · intro s e hr
    have hinv := reachableRec_inv hr
    have hcap : s.capacity = 0 := reachableRec_capacity hr
    have hlen : s.events.length = 0 := by
      have := hinv.1
      omega
    unfold EventRecorder.record
    simp [hcap, hlen]
  · intro C s e hC hr
    have hinv := reachableRec_inv hr
    have hcap : s.capacity = C := reachableRec_capacity hr
    unfold EventRecorder.record
    by_cases hlt : s.events.length < s.capacity
    · simp [hlt]
    · have hlen : s.events.length = s.capacity := Nat.le_antisymm hinv.1 (Nat.le_of_not_lt hlt)
      have hpos : s.position < s.events.length := by
        have := hinv.2 (by omega)
        omega
      have hne : s.capacity ≠ 0 := by omega
      simp [hlt, hpos, hne]

theorem claim_C9_witness :
    EventRecorder.record (EventRecorder.new 0) (mkEnv 7 7) = none ∧
      (EventRecorder.record (EventRecorder.new 1) (mkEnv 7 7)).isSome :=
  ⟨claim_C9.1 (EventRecorder.new 0) (mkEnv 7 7) ⟨[], rfl⟩,
    claim_C9.2 1 (EventRecorder.new 1) (mkEnv 7 7) (by decide) ⟨[], rfl⟩⟩

theorem alistFind_setStat_self (k : String) (f : EventStats → EventStats) :
    ∀ m : List (String × EventStats),
      alistFind k (setStat k f m) = some (f ((alistFind k m).getD EventStats.zero)) := by
  intro m
  induction m with
  | nil => simp [setStat, alistFind]
  | cons p rest ih =>
      obtain ⟨k', v⟩ := p
      by_cases hk : k' = k
      · simp [setStat, alistFind, hk]
      · simp [setStat, alistFind, hk, ih]

/-- Claim C2 counterexample: after Scenario 1 the call succeeds but the
statistics for `"market_data"` are `published = 0, dropped = 1` — not
`published = 1, dropped = 1` as the claim states (the code increments
only the `dropped` counter when the send finds no subscribers). -/
theorem claim_C2_counterexample :
    pubDropPair firstPublishResult ("market_data") = some (0, 1) ∧
      pubDropPair firstPublishResult ("market_data") ≠ some (1, 1) := by
  constructor
  · rfl
  · intro h
    rw [show pubDropPair firstPublishResult ("market_data") = some (0, 1) from rfl] at h
    simp at h

/-- Claim C2 (amended): publishing an event whose type has zero
subscribers on a recorder-free dynamic bus never errors, increments the
dropped counter for that type-name by exactly one, and leaves the
published counter unchanged; concretely, after Scenario 1 the call
succeeds and the statistics for the type show published = 0 and
dropped = 1. -/
theorem publish_no_subscribers (ch : List (String × ChanState))
    (sm : List (String × EventStats)) (nid : Nat) (now : Int)
    (ev : EventPayload) (priority : Nat)
    (hzero : (getOrCreateChan ch ev.event_type).1.receivers = 0) :
    EventBus.publish_with_priority ⟨ch, sm, none, nid⟩ now ev priority =
      some (⟨(getOrCreateChan ch ev.event_type).2,
             setStat ev.event_type
               (fun st => { st with dropped := st.dropped + 1 }) sm,
             none, nid + 1⟩, Except.ok ()) := by
  simp [EventBus.publish_with_priority, hzero]

theorem claim_C2 :
    ∀ (b : BusState) (now : Int) (ev : EventPayload) (priority : Nat),
      b.recorder = none →
      (getOrCreateChan b.channels ev.event_type).1.receivers = 0 →
      pubDropPair (EventBus.publish_with_priority b now ev priority) ev.event_type =
          some ((statOf b ev.event_type).published,
                (statOf b ev.event_type).dropped + 1) ∧
        (EventBus.publish_with_priority b now ev priority).map Prod.snd =
          some (Except.ok ()) := by
  intro b now ev priority hrec hzero
  obtain ⟨ch, sm, rec, nid⟩ := b
  simp only at hrec hzero
  subst hrec
  rw [publish_no_subscribers ch sm nid now ev priority hzero]
  constructor
  · simp only [pubDropPair, Option.map_some', Option.some.injEq, statOf]
    rw [alistFind_setStat_self]
    simp
  · rfl

theorem claim_C2_witness :
    pubDropPair firstPublishResult ("market_data") = some (0, 1) ∧
      firstPublishResult.map Prod.snd = some (Except.ok ()) := by
  have h := claim_C2 EventBus.new 1234567890
    (EventPayload.marketData esMarketData) 5 rfl (by decide)
  exact ⟨by simpa using h.1, h.2⟩

theorem allReceivedZero_setStat {m : List (String × EventStats)}
    {k : String} {f : EventStats → EventStats}
    (hf : ∀ st, (f st).received = st.received)
    (hm : allReceivedZero m = true) :
    allReceivedZero (setStat k f m) = true := by
  induction m with
  | nil =>
      simp [allReceivedZero, setStat, hf, EventStats.zero]
  | cons p rest ih =>
      obtain ⟨k', v⟩ := p
      simp only [allReceivedZero, List.all_cons, Bool.and_eq_true, beq_iff_eq] at hm
      by_cases hk : k' = k
      · simp [allReceivedZero, setStat, hk, hf, hm.1, hm.2]
      · have := ih hm.2
        simp only [allReceivedZero] at this
        simp [allReceivedZero, setStat, hk, hm.1, this]

theorem allReceivedZero_publish {b b' : BusState} {now : Int}
    {ev : EventPayload} {priority : Nat}
    (hm : allReceivedZero b.statsMap = true)
    (h : (EventBus.publish_with_priority b now ev priority).map Prod.fst = some b') :
    allReceivedZero b'.statsMap = true := by
  unfold EventBus.publish_with_priority at h
  simp only [] at h
  cases hrec : b.recorder with
  | none =>
      simp only [hrec, Option.map_some', Option.some.injEq] at h
      split at h
      · cases h
        exact allReceivedZero_setStat (fun st => rfl) hm
      · cases h
        exact allReceivedZero_setStat (fun st => rfl) hm
  | some r =>
      simp only [hrec] at h
      cases hr : EventRecorder.record r ⟨b.nextId, now, priority, ev⟩ with
      | none => simp [hr] at h
      | some r' =>
          simp only [hr, Option.map_some', Option.some.injEq] at h
          split at h
          · cases h
            exact allReceivedZero_setStat (fun st => rfl) hm
          · cases h
            exact allReceivedZero_setStat (fun st => rfl) hm

/-- Claim C8: in every bus state reachable from `EventBus::new()` or
`EventBus::with_recording(c)` by any sequence of publish and subscribe
operations, every per-type-name statistics entry returned by
`get_stats` has `received = 0`: the bus only ever updates the
`published` and `dropped` counters. -/
theorem claim_C8 :
    ∀ (init : BusState),
      (init = EventBus.new ∨ ∃ c, init = EventBus.with_recording c) →
      ∀ (ops : List BusOp) (b' : BusState),
        applyBusOps init ops = some b' →
        allReceivedZero (EventBus.get_stats b') = true := by
  intro init hinit ops b' h
  have hstart : allReceivedZero init.statsMap = true := by
    rcases hinit with h1 | ⟨c, h2⟩
    · rw [h1]; rfl
    · rw [h2]; rfl
  clear hinit
  induction ops generalizing init with
  | nil =>
      simp only [applyBusOps, Option.some.injEq] at h
      cases h
      exact hstart
  | cons op ops ih =>
      simp only [applyBusOps] at h
      cases hmid : applyBusOp init op with
      | none => rw [hmid] at h; cases h
      | some bmid =>
          rw [hmid] at h
          refine ih bmid h ?_
          cases op with
          | pub now ev priority =>
              simp only [applyBusOp] at hmid
              exact allReceivedZero_publish hstart hmid
          | sub etype =>
              simp only [applyBusOp, Option.some.injEq] at hmid
              cases hmid
              simpa [EventBus.subscribe] using hstart

theorem claim_C8_witness :
    allReceivedZero (EventBus.get_stats c8Bus) = true :=
  claim_C8 EventBus.new (Or.inl rfl) c8Ops c8Bus (by decide)

/-- Claim C6: when the underlying broadcast channel reports `Lagged(n)`,
`Subscriber::recv` logs a warning and yields no event — observationally
the same `none` as a closed channel — for every `n`; a received message
comes back unchanged with no warning. -/
theorem claim_C6 :
    (∀ n : Nat,
        (Subscriber.recv (BroadcastRecv.lagged n)).1 = none ∧
        (Subscriber.recv (BroadcastRecv.lagged n)).2 = true) ∧
      Subscriber.recv BroadcastRecv.closed = (none, false) ∧
      (∀ n : Nat,
        (Subscriber.recv (BroadcastRecv.lagged n)).1 =
          (Subscriber.recv BroadcastRecv.closed).1) ∧
      (∀ e : EventEnvelope, Subscriber.recv (BroadcastRecv.ok e) = (some e, false)) :=
  ⟨fun _ => ⟨rfl, rfl⟩, rfl, fun _ => rfl, fun _ => rfl⟩

theorem alistFindN_upsert_self (k : Nat) (f : TypedEventStats → TypedEventStats) :
    ∀ m, alistFindN k (upsertTypedStat k f m) =
      some (f ((alistFindN k m).getD TypedEventStats.zero)) := by
  intro m
  induction m with
  | nil => simp [upsertTypedStat, alistFindN]
  | cons p rest ih =>
      obtain ⟨k', v⟩ := p
      by_cases hk : k' = k
      · simp [upsertTypedStat, alistFindN, hk]
      · simp [upsertTypedStat, alistFindN, hk, ih]

theorem alistFindN_set_self {β : Type} (k : Nat) (v : β) :
    ∀ m (c : β), alistFindN k m = some c → alistFindN k (alistSetN k v m) = some v := by
  intro m
  induction m with
  | nil => intro c h; cases h
  | cons p rest ih =>
      intro c h
      obtain ⟨k', v'⟩ := p
      by_cases hk : k' = k
      · simp [alistSetN, alistFindN, hk]
      · simp only [alistFindN, hk, if_false] at h
        simp [alistSetN, alistFindN, hk, ih c h]

theorem alistFindN_append_self {β : Type} (k : Nat) (v : β) :
    ∀ m, alistFindN k m = none → alistFindN k (m ++ [(k, v)]) = some v := by
  intro m
  induction m with
  | nil => intro _; simp [alistFindN]
  | cons p rest ih =>
      intro h
      obtain ⟨k', v'⟩ := p
      by_cases hk : k' = k
      · simp [alistFindN, hk] at h
      · simp only [alistFindN, hk, if_false] at h
        simp [alistFindN, hk, ih h]

/-- Claim C7: `TypedEventBus::publish` gets-or-creates the channel for
the event type and enqueues, incrementing the type's published counter
on success; it fails with a `Disconnected` send error (carrying the
event, not retried, statistics and queue untouched) exactly when every
receiving handle to that channel's queue has been dropped — a freshly
created channel is connected, so a publish to a never-seen type always
succeeds. -/
theorem claim_C7 :
    ∀ (b : TypedBusState) (k e : Nat),
      ((TypedEventBus.publish b k e).1 = Except.error e ↔
        ∃ c, alistFindN k b.channels = some c ∧ c.disconnected = true) ∧
      (alistFindN k b.channels = none →
        (TypedEventBus.publish b k e).1 = Except.ok () ∧
        alistFindN k (TypedEventBus.publish b k e).2.channels =
          some ⟨[e], false⟩ ∧
        (alistFindN k (TypedEventBus.publish b k e).2.statsT).getD TypedEventStats.zero =
          { (alistFindN k b.statsT).getD TypedEventStats.zero with
              published := ((alistFindN k b.statsT).getD TypedEventStats.zero).published + 1 }) ∧
      (∀ c, alistFindN k b.channels = some c → c.disconnected = false →
        (TypedEventBus.publish b k e).1 = Except.ok () ∧
        alistFindN k (TypedEventBus.publish b k e).2.channels =
          some { c with queue := c.queue ++ [e] } ∧
        (alistFindN k (TypedEventBus.publish b k e).2.statsT).getD TypedEventStats.zero =
          { (alistFindN k b.statsT).getD TypedEventStats.zero with
              published := ((alistFindN k b.statsT).getD TypedEventStats.zero).published + 1 }) ∧
      (∀ c, alistFindN k b.channels = some c → c.disconnected = true →
        TypedEventBus.publish b k e = (Except.error e, b)) := by
  intro b k e
  refine ⟨?_, ?_, ?_, ?_⟩
  · constructor
    · intro h
      unfold TypedEventBus.publish at h
      cases hfind : alistFindN k b.channels with
      | none =>
          simp only [get_or_create_channel, hfind, FastChannel.send] at h
          simp at h
      | some c =>
          cases hd : c.disconnected with
          | false =>
              simp only [get_or_create_channel, hfind, FastChannel.send, hd] at h
              simp at h
          | true => exact ⟨c, rfl, hd⟩
    · rintro ⟨c, hfind, hd⟩
      unfold TypedEventBus.publish
      simp [get_or_create_channel, hfind, FastChannel.send, hd]
  · intro hfind
    unfold TypedEventBus.publish
    simp only [get_or_create_channel, hfind, FastChannel.send, Bool.false_eq_true,
      if_false]
    refine ⟨trivial, ?_, ?_⟩
    · exact alistFindN_set_self k _ _ _ (alistFindN_append_self k _ _ hfind)
    · rw [alistFindN_upsert_self]
      simp
  · intro c hfind hd
    unfold TypedEventBus.publish
    simp only [get_or_create_channel, hfind, FastChannel.send, hd,
      Bool.false_eq_true, if_false]
    refine ⟨trivial, ?_, ?_⟩
    · exact alistFindN_set_self k _ _ _ hfind
    · rw [alistFindN_upsert_self]
      simp
  · intro c hfind hd
    unfold TypedEventBus.publish
    simp [get_or_create_channel, hfind, FastChannel.send, hd]

theorem claim_C7_witness :
    (TypedEventBus.publish TypedEventBus.new 0 42).1 = Except.ok () ∧
      alistFindN 0 (TypedEventBus.publish TypedEventBus.new 0 42).2.channels =
        some ⟨[42], false⟩ ∧
      TypedEventBus.publish deadChanBus 1 7 = (Except.error 7, deadChanBus) :=
  ⟨((claim_C7 TypedEventBus.new 0 42).2.1 rfl).1,
    ((claim_C7 TypedEventBus.new 0 42).2.1 rfl).2.1,
    (claim_C7 deadChanBus 1 7).2.2.2 ⟨[], true⟩ rfl rfl⟩

theorem publishedOf_runAux (speed : ReplaySpeed) :
    ∀ (prev : Option Int) (l : List EventEnvelope),
      publishedOf (runAux speed prev l) = l := by
  intro prev l
  induction l generalizing prev with
  | nil => rfl
  | cons e rest ih =>
      unfold runAux
      cases pacing_sleep speed prev e.timestamp_ns with
      | none => simp [publishedOf, ih]
      | some d => simp [publishedOf, ih]

/-- Claim C10: `run` leaves the loaded batch unchanged — the engine
holds the same envelopes in the same order afterwards, `event_count` is
unchanged, the publish trace is exactly the batch, and a second `run`
replays the identical action sequence. -/
theorem claim_C10 :
    ∀ r : EventReplay,
      (EventReplay.run r).1.events = r.events ∧
      EventReplay.event_count (EventReplay.run r).1 = EventReplay.event_count r ∧
      publishedOf (EventReplay.run r).2 = r.events ∧
      (EventReplay.run (EventReplay.run r).1).2 = (EventReplay.run r).2 := by
  intro r
  refine ⟨rfl, rfl, publishedOf_runAux r.speed none r.events, rfl⟩

theorem filter_insertionSort_ts (t : Int) (l : List EventEnvelope) :
    (l.insertionSort tsle).filter (fun e => decide (e.timestamp_ns = t)) =
      l.filter (fun e => decide (e.timestamp_ns = t)) := by
  have hpair : (l.filter (fun e => decide (e.timestamp_ns = t))).Pairwise tsle := by
    apply List.pairwise_of_forall_mem_list
    intro a ha b hb
    have ha' := List.of_mem_filter ha
    have hb' := List.of_mem_filter hb
    simp only [decide_eq_true_eq] at ha' hb'
    unfold tsle
    omega
  have hsub : List.Sublist (l.filter (fun e => decide (e.timestamp_ns = t)))
      (l.insertionSort tsle) :=
    List.sublist_insertionSort hpair (List.filter_sublist l)
  have hperm : List.Perm
      ((l.insertionSort tsle).filter (fun e => decide (e.timestamp_ns = t)))
      (l.filter (fun e => decide (e.timestamp_ns = t))) :=
    (List.perm_insertionSort tsle l).filter _
  have hidem : (l.filter (fun e => decide (e.timestamp_ns = t))).filter
      (fun e => decide (e.timestamp_ns = t)) =
      l.filter (fun e => decide (e.timestamp_ns = t)) :=
    List.filter_eq_self.mpr (fun a ha => (List.mem_filter.mp ha).2)
  have hsub2 : List.Sublist (l.filter (fun e => decide (e.timestamp_ns = t)))
      ((l.insertionSort tsle).filter (fun e => decide (e.timestamp_ns = t))) := by
    have := hsub.filter (fun e => decide (e.timestamp_ns = t))
    rwa [hidem] at this
  exact (hsub2.eq_of_length hperm.length_eq.symm).symm

theorem strict_of_sorted_nodup {l : List EventEnvelope}
    (hs : List.Sorted tsle l)
    (hnd : (l.map (fun e => e.timestamp_ns)).Nodup) :
    List.Pairwise (fun a b : EventEnvelope => a.timestamp_ns < b.timestamp_ns) l := by
  have hmap : (l.map (fun e => e.timestamp_ns)).Sorted (· ≤ ·) := by
    rw [List.Sorted, List.pairwise_map]
    exact hs
  have hlt := hmap.lt_of_le hnd
  rw [List.Sorted, List.pairwise_map] at hlt
  exact hlt

/-- Claim C1 counterexample: two envelopes with the same timestamp
(5 ns) are delivered in their (stable) load order, so the delivered
timestamp sequence `5, 5` is ascending but not *strictly* ascending. -/
theorem claim_C1_counterexample :
    ¬ List.Pairwise (fun a b : EventEnvelope => a.timestamp_ns < b.timestamp_ns)
      (publishedOf (EventReplay.run (EventReplay.load_events
        (EventReplay.new ReplaySpeed.max) [mkEnv 1 5, mkEnv 2 5])).2) := by
  intro h
  have : (mkEnv 1 5).timestamp_ns < (mkEnv 2 5).timestamp_ns := by
    have heq : publishedOf (EventReplay.run (EventReplay.load_events
        (EventReplay.new ReplaySpeed.max) [mkEnv 1 5, mkEnv 2 5])).2 =
        [mkEnv 1 5, mkEnv 2 5] := by decide
    rw [heq] at h
    exact List.rel_of_pairwise_cons h (List.mem_singleton.mpr rfl)
  simp [mkEnv] at this

/-- Claim C1 (amended): for every list of envelopes and every speed,
`load_events` makes the loaded batch the stable ascending sort of the
input by `timestamp_ns` (a sorted permutation of the input in which
equal-timestamp entries keep their relative input order) and sets the
virtual clock bounds from the first and last timestamps of the sorted
batch; a subsequent `run` publishes the events through the dynamic bus
in exactly that sorted order, so subscribers receive them in ascending
(non-strict) timestamp order — strictly ascending when the input's
timestamps are pairwise distinct. -/
theorem claim_C1 (speed : ReplaySpeed) (l : List EventEnvelope) :
    (EventReplay.load_events (EventReplay.new speed) l).events =
        l.insertionSort tsle ∧
      List.Perm (EventReplay.load_events (EventReplay.new speed) l).events l ∧
      List.Sorted tsle (EventReplay.load_events (EventReplay.new speed) l).events ∧
      (∀ t : Int,
        (EventReplay.load_events (EventReplay.new speed) l).events.filter
            (fun e => decide (e.timestamp_ns = t)) =
          l.filter (fun e => decide (e.timestamp_ns = t))) ∧
      (∀ f last : EventEnvelope,
        (EventReplay.load_events (EventReplay.new speed) l).events.head? = some f →
        (EventReplay.load_events (EventReplay.new speed) l).events.getLast? = some last →
        (EventReplay.load_events (EventReplay.new speed) l).clock =
          ⟨f.timestamp_ns, f.timestamp_ns, last.timestamp_ns⟩) ∧
      publishedOf (EventReplay.run (EventReplay.load_events
          (EventReplay.new speed) l)).2 =
        l.insertionSort tsle ∧
      List.Sorted tsle (publishedOf (EventReplay.run (EventReplay.load_events
          (EventReplay.new speed) l)).2) ∧
      ((l.map (fun e => e.timestamp_ns)).Nodup →
        List.Pairwise (fun a b : EventEnvelope => a.timestamp_ns < b.timestamp_ns)
          (publishedOf (EventReplay.run (EventReplay.load_events
            (EventReplay.new speed) l)).2)) := by
  have hev : (EventReplay.load_events (EventReplay.new speed) l).events =
      l.insertionSort tsle := rfl
  have hsorted : List.Sorted tsle (l.insertionSort tsle) :=
    List.sorted_insertionSort tsle l
  have hperm : List.Perm (l.insertionSort tsle) l := List.perm_insertionSort tsle l
  have hpub : publishedOf (EventReplay.run (EventReplay.load_events
      (EventReplay.new speed) l)).2 = l.insertionSort tsle := by
    rw [show (EventReplay.run (EventReplay.load_events (EventReplay.new speed) l)).2 =
        runAux speed none (l.insertionSort tsle) from rfl]
    exact publishedOf_runAux speed none _
  refine ⟨hev, hperm, hsorted, fun t => filter_insertionSort_ts t l, ?_, hpub, ?_, ?_⟩
  · intro f last hf hl
    unfold EventReplay.load_events
    simp only
    rw [show (EventReplay.load_events (EventReplay.new speed) l).events =
        l.insertionSort tsle from rfl] at hf hl
    rw [hf, hl]
    rfl
  · rw [hpub]
    exact hsorted
  · intro hnd
    rw [hpub]
    refine strict_of_sorted_nodup hsorted ?_
    have := (hperm.map (fun e => e.timestamp_ns)).nodup_iff
    exact this.mpr hnd

theorem claim_C1_witness :
    (EventReplay.load_events (EventReplay.new ReplaySpeed.max)
        [mkEnv 3 3000000, mkEnv 1 1000000, mkEnv 2 2000000]).clock =
        ⟨1000000, 1000000, 3000000⟩ ∧
      publishedOf (EventReplay.run (EventReplay.load_events
          (EventReplay.new ReplaySpeed.max)
          [mkEnv 3 3000000, mkEnv 1 1000000, mkEnv 2 2000000])).2 =
        [mkEnv 1 1000000, mkEnv 2 2000000, mkEnv 3 3000000] ∧
      List.Pairwise (fun a b : EventEnvelope => a.timestamp_ns < b.timestamp_ns)
        (publishedOf (EventReplay.run (EventReplay.load_events
          (EventReplay.new ReplaySpeed.max)
          [mkEnv 3 3000000, mkEnv 1 1000000, mkEnv 2 2000000])).2) := by
  have h := claim_C1 ReplaySpeed.max
    [mkEnv 3 3000000, mkEnv 1 1000000, mkEnv 2 2000000]
  refine ⟨h.2.2.2.2.1 (mkEnv 1 1000000) (mkEnv 3 3000000) (by decide) (by decide), ?_, ?_⟩
  · exact h.2.2.2.2.2.1.trans (by decide)
  · exact h.2.2.2.2.2.2.2 (by decide)

theorem ppLoop_eq {α : Type} [Inhabited α] (p : α → Bool) (l : List α) (k : Nat)
    (htrue : ∀ i, i < k → p (l.getD i default) = true)
    (hfalse : ∀ i, k ≤ i → i < l.length → p (l.getD i default) = false) :
    ∀ (fuel lo hi : Nat), lo ≤ k → k ≤ hi → hi ≤ l.length → hi - lo ≤ fuel →
      ppLoop p l fuel lo hi = k := by
  intro fuel
  induction fuel with
  | zero =>
      intro lo hi hlo hhi hlen hfuel
      have : lo = k := by omega
      simp [ppLoop, this]
  | succ fuel ih =>
      intro lo hi hlo hhi hlen hfuel
      unfold ppLoop
      by_cases hlt : lo < hi
      · rw [if_pos hlt]
        have hmidlo : lo ≤ (lo + hi) / 2 := by omega
        have hmidhi : (lo + hi) / 2 < hi := by omega
        by_cases hp : p (l.getD ((lo + hi) / 2) default) = true
        · rw [if_pos hp]
          have hmidk : (lo + hi) / 2 < k := by
            by_contra hcon
            have := hfalse ((lo + hi) / 2) (by omega) (by omega)
            rw [hp] at this
            cases this
          exact ih ((lo + hi) / 2 + 1) hi (by omega) hhi hlen (by omega)
        · rw [if_neg hp]
          have hmidk : k ≤ (lo + hi) / 2 := by
            by_contra hcon
            exact hp (htrue ((lo + hi) / 2) (by omega))
          exact ih lo ((lo + hi) / 2) hlo hmidk (by omega) (by omega)
      · rw [if_neg hlt]
        omega

theorem takeWhile_getD_true {α : Type} [Inhabited α] (p : α → Bool) :
    ∀ (l : List α) (i : Nat), i < (l.takeWhile p).length →
      p (l.getD i default) = true := by
  intro l
  induction l with
  | nil => intro i h; simp [List.takeWhile] at h
  | cons x xs ih =>
      intro i h
      cases hp : p x with
      | false => simp [List.takeWhile, hp] at h
      | true =>
          simp only [List.takeWhile, hp, List.length_cons] at h
          cases i with
          | zero => simpa using hp
          | succ j =>
              rw [List.getD_cons_succ]
              exact ih j (by omega)

theorem takeWhile_length_false {α : Type} [Inhabited α] (p : α → Bool) :
    ∀ (l : List α), (l.takeWhile p).length < l.length →
      p (l.getD (l.takeWhile p).length default) = false := by
  intro l
  induction l with
  | nil => intro h; simp at h
  | cons x xs ih =>
      intro h
      cases hp : p x with
      | false => simp [List.takeWhile, hp]
      | true =>
          simp only [List.takeWhile, hp, List.length_cons] at h ⊢
          rw [List.getD_cons_succ]
          exact ih (by omega)

theorem take_takeWhile_length {α : Type} (p : α → Bool) :
    ∀ l : List α, l.take (l.takeWhile p).length = l.takeWhile p := by
  intro l
  induction l with
  | nil => rfl
  | cons x xs ih =>
      cases hp : p x with
      | false => simp [List.takeWhile, hp]
      | true => simp [List.takeWhile, hp, List.take_succ_cons, ih]

theorem drop_takeWhile_length {α : Type} (p : α → Bool) :
    ∀ l : List α, l.drop (l.takeWhile p).length = l.dropWhile p := by
  intro l
  induction l with
  | nil => rfl
  | cons x xs ih =>
      cases hp : p x with
      | false => simp [List.takeWhile, List.dropWhile, hp]
      | true => simp [List.takeWhile, List.dropWhile, hp, ih]

theorem partition_point_sorted (end_ns : Int) (l : List EventEnvelope)
    (hs : List.Sorted tsle l) :
    partition_point (fun e => decide (e.timestamp_ns ≤ end_ns)) l =
      (l.takeWhile (fun e => decide (e.timestamp_ns ≤ end_ns))).length := by
  have hklen : (l.takeWhile (fun e => decide (e.timestamp_ns ≤ end_ns))).length ≤
      l.length :=
    (List.takeWhile_sublist _).length_le
  apply ppLoop_eq
  · exact fun i hi => takeWhile_getD_true _ l i hi
  · intro i hki hil
    by_contra hcon
    have hptrue : decide ((l.getD i default).timestamp_ns ≤ end_ns) = true := by
      cases hval : decide ((l.getD i default).timestamp_ns ≤ end_ns) with
      | true => rfl
      | false => exact absurd hval hcon
    have hklt : (l.takeWhile (fun e => decide (e.timestamp_ns ≤ end_ns))).length <
        l.length := by omega
    have hkfalse := takeWhile_length_false
      (fun e => decide (e.timestamp_ns ≤ end_ns)) l hklt
    rcases Nat.eq_or_lt_of_le hki with heq | hlt
    · simp only [heq, hptrue] at hkfalse
      cases hkfalse
    · have hrel : tsle (l.getD
          ((l.takeWhile (fun e => decide (e.timestamp_ns ≤ end_ns))).length) default)
          (l.getD i default) := by
        have hget := List.pairwise_iff_getElem.mp hs
          ((l.takeWhile (fun e => decide (e.timestamp_ns ≤ end_ns))).length) i
          (by omega) (by omega) hlt
        simpa [List.getD_eq_getElem?_getD, List.getElem?_eq_getElem, hklt,
          (by omega : i < l.length)] using hget
      simp only [decide_eq_true_eq] at hptrue
      simp only [decide_eq_false_iff_not] at hkfalse
      unfold tsle at hrel
      omega
  · exact Nat.zero_le _
  · exact hklen
  · exact Nat.le_refl _
  · exact Nat.le_refl _

theorem dropWhile_gt_of_sorted (end_ns : Int) :
    ∀ l : List EventEnvelope, List.Sorted tsle l →
      ∀ e ∈ l.dropWhile (fun e => decide (e.timestamp_ns ≤ end_ns)),
        end_ns < e.timestamp_ns := by
  intro l
  induction l with
  | nil => intro _ e he; simp [List.dropWhile] at he
  | cons x xs ih =>
      intro hs e he
      cases hp : decide (x.timestamp_ns ≤ end_ns) with
      | true =>
          rw [List.dropWhile, hp] at he
          exact ih hs.of_cons e he
      | false =>
          rw [List.dropWhile, hp] at he
          simp only [decide_eq_false_iff_not, Int.not_le] at hp
          rcases List.mem_cons.mp he with rfl | hmem
          · exact hp
          · have := List.rel_of_pairwise_cons hs hmem
            unfold tsle at this
            omega

/-- Claim C3 counterexample: after `run_until(1)` on a batch with
timestamps `[1, 2]`, the loaded batch is the *entire* original batch
`[1, 2]` (the played prefix is put back by `run` and the suffix is
appended after it), not the unplayed suffix `[2]` alone as the claim
states. -/
theorem claim_C3_counterexample :
    (EventReplay.run_until c3Engine 1).1.events = [mkEnv 1 1, mkEnv 2 2] ∧
      (EventReplay.run_until c3Engine 1).1.events ≠ [mkEnv 2 2] := by
  exact ⟨by decide, by decide⟩

/-- Claim C3 (amended): for every engine whose loaded batch is sorted by
timestamp (as `load_events` guarantees) and every bound `end_ns`,
`run_until(end_ns)` replays exactly the prefix of events with
`timestamp_ns ≤ end_ns` (the batch split at the first timestamp
exceeding `end_ns`), in order, and after completion the loaded batch is
the entire original batch — the replayed prefix is put back by `run` and
the unplayed suffix (exactly the events with `timestamp_ns > end_ns`) is
reattached after it, so the remainder is never lost, but a subsequent
`run` replays the prefix again as well. -/
theorem claim_C3 (r : EventReplay) (end_ns : Int)
    (hs : List.Sorted tsle r.events) :
    publishedOf (EventReplay.run_until r end_ns).2 =
        r.events.takeWhile (fun e => decide (e.timestamp_ns ≤ end_ns)) ∧
      (EventReplay.run_until r end_ns).1.events = r.events ∧
      (∀ e ∈ publishedOf (EventReplay.run_until r end_ns).2,
        e.timestamp_ns ≤ end_ns) ∧
      (∀ e ∈ r.events.dropWhile (fun e => decide (e.timestamp_ns ≤ end_ns)),
        end_ns < e.timestamp_ns) := by
  have hcut := partition_point_sorted end_ns r.events hs
  have htrace : (EventReplay.run_until r end_ns).2 =
      runAux r.speed none (r.events.take
        (partition_point (fun e => decide (e.timestamp_ns ≤ end_ns)) r.events)) := rfl
  have hevents : (EventReplay.run_until r end_ns).1.events =
      r.events.take
          (partition_point (fun e => decide (e.timestamp_ns ≤ end_ns)) r.events) ++
        r.events.drop
          (partition_point (fun e => decide (e.timestamp_ns ≤ end_ns)) r.events) := rfl
  have hpub : publishedOf (EventReplay.run_until r end_ns).2 =
      r.events.takeWhile (fun e => decide (e.timestamp_ns ≤ end_ns)) := by
    rw [htrace, hcut, take_takeWhile_length]
    exact publishedOf_runAux _ _ _
  refine ⟨hpub, ?_, ?_, dropWhile_gt_of_sorted end_ns r.events hs⟩
  · rw [hevents, List.take_append_drop]
  · intro e he
    rw [hpub] at he
    have := List.mem_takeWhile_imp he
    simpa using this

theorem claim_C3_witness :
    publishedOf (EventReplay.run_until c3Engine 1).2 = [mkEnv 1 1] ∧
      (EventReplay.run_until c3Engine 1).1.events = [mkEnv 1 1, mkEnv 2 2] := by
  have h := claim_C3 c3Engine 1 (by decide)
  exact ⟨h.1.trans (by decide), h.2.1.trans (by decide)⟩

theorem pacing_sleep_max (prev : Option Int) (ts : Int) :
    pacing_sleep ReplaySpeed.max prev ts = none := by
  cases prev <;> rfl

theorem runAux_max (prev : Option Int) (l : List EventEnvelope) :
    runAux ReplaySpeed.max prev l = l.map ReplayAction.publishEnv := by
  induction l generalizing prev with
  | nil => rfl
  | cons e rest ih =>
      unfold runAux
      rw [pacing_sleep_max]
      simp [ih]

/-- Claim C5: during `run` at `Realtime` or `Multiplier` speed, for
every event after the first the wall-clock pacing delay is computed as
the timestamp delta from the previous event divided by the effective
multiplier (`Realtime` behaves exactly as multiplier 1), and a pacing
sleep is performed if and only if the delta is positive and that
computed delay exceeds 1 millisecond; sub-millisecond gaps, non-positive
deltas, and the first event incur no pacing delay, and at `Max` speed
the whole trace consists of publishes only, with no sleeps at all. -/
theorem claim_C5 :
    (∀ (prev : Option Int) (ts : Int),
        pacing_sleep ReplaySpeed.max prev ts = none) ∧
      (∀ (speed : ReplaySpeed) (ts : Int), pacing_sleep speed none ts = none) ∧
      (∀ (prev : Option Int) (ts : Int),
        pacing_sleep ReplaySpeed.realtime prev ts =
          pacing_sleep (ReplaySpeed.multiplier 1) prev ts) ∧
      (∀ (m : Rat) (p ts : Int) (d : Nat),
        pacing_sleep (ReplaySpeed.multiplier m) (some p) ts = some d ↔
          (0 < ts - p ∧ d = wall_delay_ns (ts - p) m ∧ 1000000 < d)) ∧
      (∀ (prev : Option Int) (l : List EventEnvelope),
        runAux ReplaySpeed.max prev l = l.map ReplayAction.publishEnv) := by
  refine ⟨pacing_sleep_max, ?_, ?_, ?_, runAux_max⟩
  · intro speed ts
    cases speed <;> rfl
  · intro prev ts
    cases prev <;> rfl
  · intro m p ts d
    constructor
    · intro h
      simp only [pacing_sleep, effectiveMultiplier] at h
      by_cases hpos : 0 < ts - p
      · rw [if_pos hpos] at h
        by_cases hbig : 1000000 < wall_delay_ns (ts - p) m
        · rw [if_pos hbig] at h
          cases h
          exact ⟨hpos, rfl, hbig⟩
        · rw [if_neg hbig] at h
          cases h
      · rw [if_neg hpos] at h
        cases h
    · rintro ⟨hpos, rfl, hbig⟩
      simp only [pacing_sleep, effectiveMultiplier]
      rw [if_pos hpos, if_pos hbig]

theorem claim_C5_witness :
    pacing_sleep (ReplaySpeed.multiplier 2) (some 0) 1000000000 =
        some 500000000 ∧
      runAux ReplaySpeed.max none [mkEnv 1 1, mkEnv 2 2] =
        [ReplayAction.publishEnv (mkEnv 1 1), ReplayAction.publishEnv (mkEnv 2 2)] := by
  constructor
  · have hw : wall_delay_ns ((1000000000 : Int) - 0) 2 = 500000000 := by
      unfold wall_delay_ns
      have h : ((((1000000000 : Int) - 0 : Int)) : Rat) / 2 = (500000000 : Rat) := by
        norm_num
      rw [h]
      simp [Rat.floor]
    exact (claim_C5.2.2.2.1 2 0 1000000000 500000000).mpr
      ⟨by decide, hw.symm, by decide⟩
  · exact (claim_C5.2.2.2.2 none [mkEnv 1 1, mkEnv 2 2]).trans (by decide)

theorem claim_C6_witness :
    (Subscriber.recv (BroadcastRecv.lagged 3)).1 = none ∧
      (Subscriber.recv (BroadcastRecv.lagged 3)).2 = true ∧
      Subscriber.recv BroadcastRecv.closed = (none, false) :=
  ⟨(claim_C6.1 3).1, (claim_C6.1 3).2, claim_C6.2.1⟩

theorem claim_C10_witness :
    (EventReplay.run (EventReplay.load_events
        (EventReplay.new ReplaySpeed.realtime) [mkEnv 1 10, mkEnv 2 20])).1.events =
      (EventReplay.load_events
        (EventReplay.new ReplaySpeed.realtime) [mkEnv 1 10, mkEnv 2 20]).events ∧
    publishedOf (EventReplay.run (EventReplay.load_events
        (EventReplay.new ReplaySpeed.realtime) [mkEnv 1 10, mkEnv 2 20])).2 =
      (EventReplay.load_events
        (EventReplay.new ReplaySpeed.realtime) [mkEnv 1 10, mkEnv 2 20]).events :=
  ⟨(claim_C10 (EventReplay.load_events
      (EventReplay.new ReplaySpeed.realtime) [mkEnv 1 10, mkEnv 2 20])).1,
    (claim_C10 (EventReplay.load_events
      (EventReplay.new ReplaySpeed.realtime) [mkEnv 1 10, mkEnv 2 20])).2.2.1⟩
